import Mathlib

/-!
Verification development for the audio-augmentation notebook
`week_two/notebooks/3 - Day Three - Model Training 1/04.1 - Augmenting Audio Data.ipynb`.

The notebook reads `.wav` files under an input root, applies a chain of four
probabilistic transforms `NUM_AUGMENTATIONS` times per file, and writes the
results to a mirrored output tree.  The embedding below models:

* filesystem paths as lists of name components (`FsPath`), mirroring the
  `pathlib.Path` operations the notebook uses (`relative_to`, `parent`,
  `stem`, `/`-joining, `rglob`);
* waveforms as lists of rational samples;
* the Python `random` stream after `random.seed(RANDOM_SEED)` as an abstract
  stream of unit-interval rationals together with a position (`Rng`);
* filesystem effects as an explicit trace of writes and `mkdir` calls, and
  failures (unreadable file, write permission) via `Except`.
-/

/-- A filesystem path, as the list of its name components.
`"/workspace/data/raw_audio"` is `⟨["workspace", "data", "raw_audio"]⟩`. -/
structure FsPath where
  components : List String
deriving DecidableEq, Repr

/-- Joining of two paths, `pathlib`'s `/` (the notebook's `output_root / class_subdir`).
Joining with an empty relative path (Python's `Path(".")`, whose `parts` are
empty) is the identity, as in `pathlib`. -/
def FsPath.joinPath (p q : FsPath) : FsPath :=
  FsPath.mk (p.components ++ q.components)

/-- Joining of a path and a file name, `pathlib`'s `/` (the notebook's
`output_subdir / f"{basename}_aug{i+1}.wav"`). -/
def FsPath.pushName (p : FsPath) (name : String) : FsPath :=
  FsPath.mk (p.components ++ [name])

/-- The `pathlib.Path.parent` operation: the path without its final component.  For a
single-component relative path this is `Path(".")`, whose `parts` are empty. -/
def FsPath.parent (p : FsPath) : FsPath :=
  FsPath.mk p.components.dropLast

/-- The `pathlib.Path.name` operation: the final component (empty for `Path(".")`). -/
def FsPath.lastName (p : FsPath) : String :=
  p.components.getLastD ""

/-- The `pathlib.Path.relative_to` operation: drop the root's components.  The notebook only
calls this on paths produced by `input_root.rglob(...)`, which are always under
`input_root`, so the prefix is guaranteed and dropping by length is faithful. -/
def FsPath.relativeTo (p root : FsPath) : FsPath :=
  FsPath.mk (p.components.drop root.components.length)

/-- The `pathlib.Path.stem` operation: the final component without its last suffix.  Follows
CPython: the suffix starts at the last `.` provided that dot is neither the
first nor the last character of the name. -/
def stemOfName (name : String) : String :=
  let cs := name.data
  match cs.reverse.findIdx? (fun c => c = '.') with
  | none => name
  | some r =>
    let i := cs.length - 1 - r
    if 0 < i ∧ i < cs.length - 1 then String.mk (cs.take i) else name

/-- Whether a file name matches the glob pattern `*.wav` (the `*` may match
the empty string, so this is exactly "ends with `.wav`"). -/
def matchesWav (name : String) : Bool :=
  name.data.reverse.take 4 == ['v', 'a', 'w', '.']

/-- Whether `p` is a proper descendant of `root`. -/
def underRoot (p root : FsPath) : Bool :=
  Nat.blt root.components.length p.components.length &&
    p.components.take root.components.length == root.components

/-- The notebook's `list(input_root.rglob("*.wav"))`: from a directory listing
(all file paths on disk, in filesystem order), the files under `root` whose
name matches `*.wav`, in that order. -/
def rglobWav (listing : List FsPath) (root : FsPath) : List FsPath :=
  listing.filter (fun p => underRoot p root && matchesWav (FsPath.lastName p))

/-! ## Configuration constants (the notebook's second code cell) -/

/-- The constant `INPUT_DIR = "/workspace/data/raw_audio"`. -/
def INPUT_DIR : FsPath := FsPath.mk ["workspace", "data", "raw_audio"]

/-- The constant `OUTPUT_DIR = "/workspace/data/augmented_audio"`. -/
def OUTPUT_DIR : FsPath := FsPath.mk ["workspace", "data", "augmented_audio"]

/-- The constant `SAMPLE_RATE = 16000`. -/
def SAMPLE_RATE : Nat := 16000

/-- The constant `NUM_AUGMENTATIONS = 3`. -/
def NUM_AUGMENTATIONS : Nat := 3

/-- The constant `RANDOM_SEED = 42`. -/
def RANDOM_SEED : Nat := 42

/-- The `AUGMENTATION_PARAMS` dictionary: one `(min, max)` window per effect. -/
structure AugParams where
  noise_amplitude : ℚ × ℚ
  time_stretch_rate : ℚ × ℚ
  pitch_shift_semitones : ℚ × ℚ
  shift_fraction : ℚ × ℚ
deriving DecidableEq, Repr

/-- The dictionary `AUGMENTATION_PARAMS` with the notebook's literal values. -/
def AUGMENTATION_PARAMS : AugParams :=
  AugParams.mk (1/1000, 15/1000) (9/10, 11/10) (-2, 2) (-1/5, 1/5)

/-! ## Waveforms and the random stream -/

/-- A waveform: a list of rational samples (the float samples of the source,
modelled exactly). -/
abbrev Waveform := List ℚ

/-- The state of the seeded pseudo-random generator: the stream of
unit-interval draws it will produce, and the position of the next draw. -/
structure Rng where
  stream : Nat → ℚ
  pos : Nat

/-- Draw one number from the stream and advance. -/
def Rng.next (r : Rng) : ℚ × Rng :=
  (r.stream r.pos, Rng.mk r.stream (r.pos + 1))

/-- Python's `random.uniform(lo, hi)`: one draw mapped affinely into `[lo, hi]`. -/
def uniformDraw (lo hi : ℚ) (r : Rng) : ℚ × Rng :=
  let (u, r1) := r.next
  (lo + u * (hi - lo), r1)

/-! ## The four transforms and `Compose`

The transforms come from the `audiomentations` library, whose code is not part
of this repository; their per-call protocol and parameter windows are modelled
from the spec, and the pure DSP bodies (which no claim depends on) are simple
rational stand-ins. -/

/-- Modelled from the spec: `AddGaussianNoise.apply` adds noise scaled into the
drawn amplitude; the Gaussian sample values themselves are library DSP not in
the source and are modelled by a unit perturbation scaled by the amplitude. -/
def addGaussianNoiseApply (amplitude : ℚ) (y : Waveform) : Waveform :=
  y.map (fun s => s + amplitude)

/-- Modelled from the spec: `TimeStretch.apply` rescales duration by the drawn
rate without changing pitch; modelled as nearest-neighbour resampling to
length `⌊len / rate⌋`. -/
def timeStretchApply (rate : ℚ) (y : Waveform) : Waveform :=
  if rate = 0 then y
  else
    (List.range (((y.length : ℚ) / rate).floor.toNat)).map
      (fun i => y.getD (((i : ℚ) * rate).floor.toNat) 0)

/-- Modelled from the spec: `PitchShift.apply` shifts pitch by the drawn number
of semitones, keeping duration; the `2^(semitones/12)` frequency scaling is
irrational, so the body is a rational stand-in keyed by the semitone count. -/
def pitchShiftApply (semitones : ℚ) (y : Waveform) : Waveform :=
  y.map (fun s => s * (1 + semitones / 24))

/-- Modelled from the spec: `Shift.apply` with `shift_unit="fraction"` and
rollover offsets the waveform circularly by the drawn fraction of its length. -/
def shiftApply (frac : ℚ) (y : Waveform) : Waveform :=
  if y.length = 0 then y
  else y.rotate (((frac * (y.length : ℚ)).floor % (y.length : ℤ)).toNat)

/-- One step of the chain: an application probability, a `[lo, hi]` parameter
window, and the transform body applied at the drawn parameter, the sample rate
and the waveform. -/
structure Transform where
  prob : ℚ
  lo : ℚ
  hi : ℚ
  app : ℚ → Nat → Waveform → Waveform

/-- The result of running one transform: the (possibly unchanged) waveform,
whether the transform fired, the parameter it drew if it did, and the advanced
generator. -/
structure StepResult where
  out : Waveform
  fired : Bool
  param : Option ℚ
  rng : Rng

/-- Modelled from the spec: one `audiomentations` transform call.  Its own coin
draw against `prob` decides activation; only when it fires does it draw its
parameter uniformly from `[lo, hi]` and apply the body. -/
def runTransform (t : Transform) (sr : Nat) (y : Waveform) (r : Rng) : StepResult :=
  let (c, r1) := r.next
  if c < t.prob then
    let (v, r2) := uniformDraw t.lo t.hi r1
    StepResult.mk (t.app v sr y) true (some v) r2
  else
    StepResult.mk y false none r1

/-- The result of one `Compose` invocation: the output waveform, one
`(fired, drawn parameter)` entry per transform in order, and the advanced
generator. -/
structure ComposeResult where
  out : Waveform
  trace : List (Bool × Option ℚ)
  rng : Rng

/-- Modelled from the spec: `Compose` applies its transforms in order,
threading the waveform and the generator. -/
def runCompose : List Transform → Nat → Waveform → Rng → ComposeResult
  | [], _, y, r => ComposeResult.mk y [] r
  | t :: ts, sr, y, r =>
    let s := runTransform t sr y r
    let rest := runCompose ts sr s.out s.rng
    ComposeResult.mk rest.out ((s.fired, s.param) :: rest.trace) rest.rng

/-- The notebook's `augmenter`: `Compose` of additive Gaussian noise, time
stretch, pitch shift and time shift, each with `p=0.5` and its window taken
from `AUGMENTATION_PARAMS`. -/
def augmenter : List Transform :=
  [ Transform.mk (1/2) AUGMENTATION_PARAMS.noise_amplitude.1
      AUGMENTATION_PARAMS.noise_amplitude.2
      (fun a _ y => addGaussianNoiseApply a y)
  , Transform.mk (1/2) AUGMENTATION_PARAMS.time_stretch_rate.1
      AUGMENTATION_PARAMS.time_stretch_rate.2
      (fun v _ y => timeStretchApply v y)
  , Transform.mk (1/2) AUGMENTATION_PARAMS.pitch_shift_semitones.1
      AUGMENTATION_PARAMS.pitch_shift_semitones.2
      (fun v _ y => pitchShiftApply v y)
  , Transform.mk (1/2) AUGMENTATION_PARAMS.shift_fraction.1
      AUGMENTATION_PARAMS.shift_fraction.2
      (fun v _ y => shiftApply v y) ]

/-! ## The per-file routine and the driver -/

/-- A run error: the exceptions the script can die of — an unreadable input
file (`librosa.load` raises) or a denied write (`sf.write` raises).  A missing
input directory is not among them: CPython's `rglob` on a nonexistent
directory yields an empty iterator (its selectors guard on `is_dir`), so the
driver just finds zero files. -/
inductive RunError where
  | loadError : FsPath → RunError
  | writeError : FsPath → RunError
deriving DecidableEq, Repr

/-- The environment a run executes in: the seeded random stream, the readable
input files on disk (`none` means reading that path raises), which paths may
be written (`false` means `sf.write` raises), and whether the input directory
exists. -/
structure Env where
  stream : Nat → ℚ
  contents : FsPath → Option (Waveform × Nat)
  writeOk : FsPath → Bool
  inputDirExists : Bool

/-- Modelled from the spec: `librosa.load(file_path, sr=sample_rate)` returns
the waveform resampled to the requested rate together with that rate.  The
resampling DSP is not in the source; the stored samples stand for the
already-resampled waveform and the returned rate is the requested one. -/
def librosa_load (content : Waveform × Nat) (sample_rate : Nat) : Waveform × Nat :=
  (content.1, sample_rate)

/-- One file written by the run: its path, its samples, and the sample rate
passed to `sf.write`. -/
structure WriteRec where
  path : FsPath
  samples : Waveform
  rate : Nat

/-- The observable state of a run: the files written so far in order, the
`mkdir` calls issued so far in order, and the random generator. -/
structure RunState where
  writes : List WriteRec
  mkdirs : List FsPath
  rng : Rng

/-- The output file name `f"{basename}_aug{i+1}.wav"` for loop index `i`. -/
def augName (basename : String) (i : Nat) : String :=
  basename ++ ("_aug" ++ (Nat.repr (i + 1) ++ ".wav"))

/-- The body of `augment_and_save`'s `for i in range(NUM_AUGMENTATIONS)` loop:
each iteration applies the augmenter to the originally loaded waveform `y`,
issues `output_subdir.mkdir(parents=True, exist_ok=True)`, and writes
`output_subdir / f"{basename}_aug{i+1}.wav"` at the given rate, raising if the
path is not writable.  `n` is the number of iterations left, `i` the current
loop index. -/
def augLoop (env : Env) (y : Waveform) (sr : Nat) (outSub : FsPath)
    (basename : String) : Nat → Nat → RunState → Except RunError RunState
  | 0, _, st => Except.ok st
  | Nat.succ n, i, st =>
    let res := runCompose augmenter sr y st.rng
    let outPath := FsPath.pushName outSub (augName basename i)
    if env.writeOk outPath then
      augLoop env y sr outSub basename n (i + 1)
        (RunState.mk
          (st.writes ++ [WriteRec.mk outPath res.out sr])
          (st.mkdirs ++ [outSub]) res.rng)
    else Except.error (RunError.writeError outPath)

/-- The notebook's `augment_and_save(file_path, sample_rate, input_root,
output_root)`: splits the path into class subdirectory and basename, loads the
waveform at the requested rate (raising if the file is unreadable), then runs
the augmentation loop. -/
def augment_and_save (env : Env) (file_path : FsPath) (sample_rate : Nat)
    (input_root output_root : FsPath) (st : RunState) : Except RunError RunState :=
  let relative_path := FsPath.relativeTo file_path input_root
  let class_subdir := FsPath.parent relative_path
  let basename := stemOfName (FsPath.lastName relative_path)
  match env.contents file_path with
  | none => Except.error (RunError.loadError file_path)
  | some content =>
    let y := (librosa_load content sample_rate).1
    augLoop env y sample_rate (FsPath.joinPath output_root class_subdir)
      basename NUM_AUGMENTATIONS 0 st

/-- The driver's `for file_path in input_files:` loop.  There is no exception
handler: the first failure aborts the whole traversal. -/
def processFiles (env : Env) (input_root output_root : FsPath) :
    List FsPath → RunState → Except RunError RunState
  | [], st => Except.ok st
  | fp :: rest, st =>
    match augment_and_save env fp SAMPLE_RATE input_root output_root st with
    | Except.ok st1 => processFiles env input_root output_root rest st1
    | Except.error e => Except.error e

/-- The run state before any file is processed. -/
def initState (env : Env) : RunState :=
  RunState.mk [] [] (Rng.mk env.stream 0)

/-- The notebook's `list(input_root.rglob("*.wav"))` as executed against the
disk.  When the input directory does not exist, CPython's `rglob` raises
nothing and yields an empty iterator (its selectors guard on `is_dir`), so the
result is the empty list. -/
def rglobWavDisk (env : Env) (listing : List FsPath) : List FsPath :=
  if env.inputDirExists then rglobWav listing INPUT_DIR else []

/-- The notebook's driver cell: `input_files = list(input_root.rglob("*.wav"))`
(an empty list when the input directory is missing), the
`Found {len(input_files)} ...` report, and the per-file loop.  Returns the
reported count and the final run state, or the propagated error. -/
def runDriver (env : Env) (listing : List FsPath) : Except RunError (Nat × RunState) :=
  match processFiles env INPUT_DIR OUTPUT_DIR (rglobWavDisk env listing)
      (initState env) with
  | Except.ok st => Except.ok ((rglobWavDisk env listing).length, st)
  | Except.error e => Except.error e

/-- Modelled from the spec: `random.seed(RANDOM_SEED)` determines the whole
draw stream.  The Mersenne Twister itself is not in the source; it is modelled
by a 64-bit linear congruential generator mapped into `[0, 1)`. -/
def lcgIter (seed : Nat) : Nat → Nat
  | 0 => (6364136223846793005 * seed + 1442695040888963407) % (2 ^ 64)
  | Nat.succ n => (6364136223846793005 * lcgIter seed n + 1442695040888963407) % (2 ^ 64)

/-- The unit-interval draw stream determined by a seed. -/
def seededStream (seed : Nat) (n : Nat) : ℚ :=
  ((lcgIter seed n % 2 ^ 53 : Nat) : ℚ) / (2 ^ 53 : ℚ)

/-- The environment of a run of the script: the stream is fully determined by
the seed, the rest by the disk. -/
def mkEnv (seed : Nat) (contents : FsPath → Option (Waveform × Nat))
    (writeOk : FsPath → Bool) (inputDirExists : Bool) : Env :=
  Env.mk (seededStream seed) contents writeOk inputDirExists

/-! ## Applying a run's effects to a filesystem -/

/-- Read an association list of files by path. -/
def readAssoc : List (FsPath × (Waveform × Nat)) → FsPath → Option (Waveform × Nat)
  | [], _ => none
  | e :: es, p => if e.1 = p then some e.2 else readAssoc es p

/-- Remove every entry at a path. -/
def removePath : List (FsPath × (Waveform × Nat)) → FsPath → List (FsPath × (Waveform × Nat))
  | [], _ => []
  | e :: es, p => if e.1 = p then removePath es p else e :: removePath es p

/-- A filesystem: files by path, and the set of directories. -/
structure Fs where
  files : List (FsPath × (Waveform × Nat))
  dirs : List FsPath

/-- Read a file. -/
def Fs.read (fs : Fs) (p : FsPath) : Option (Waveform × Nat) :=
  readAssoc fs.files p

/-- The call `sf.write`: create or silently overwrite the file at the path. -/
def Fs.writeFile (fs : Fs) (w : WriteRec) : Fs :=
  Fs.mk ((w.path, (w.samples, w.rate)) :: removePath fs.files w.path) fs.dirs

/-- The call `mkdir(parents=True, exist_ok=True)`: add the directory if absent; an
existing directory is left alone and raises nothing. -/
def Fs.mkdirP (fs : Fs) (p : FsPath) : Fs :=
  if p ∈ fs.dirs then fs else Fs.mk fs.files (p :: fs.dirs)

/-- Apply a finished run's effects to a filesystem: all its `mkdir` calls and
then all its writes, each in order. -/
def Fs.applyRun (fs : Fs) (st : RunState) : Fs :=
  st.writes.foldl Fs.writeFile (st.mkdirs.foldl Fs.mkdirP fs)

/-! ## Derived descriptions of the per-file routine -/

/-- The output directory `augment_and_save` targets for an input file:
`output_root / class_subdir`. -/
def outputSubdirFor (input_root output_root fp : FsPath) : FsPath :=
  FsPath.joinPath output_root (FsPath.parent (FsPath.relativeTo fp input_root))

/-- The basename `augment_and_save` derives for an input file. -/
def basenameFor (input_root fp : FsPath) : String :=
  stemOfName (FsPath.lastName (FsPath.relativeTo fp input_root))

/-- The output paths `augment_and_save` writes for an input file, in order. -/
def outputPathsFor (input_root output_root fp : FsPath) : List FsPath :=
  (List.range NUM_AUGMENTATIONS).map
    (fun k => FsPath.pushName (outputSubdirFor input_root output_root fp)
      (augName (basenameFor input_root fp) k))

/-- The generator state after `k` invocations of the augmenter, every one of
them on the same waveform `y`. -/
def chainStates (sr : Nat) (y : Waveform) (r : Rng) : Nat → Rng
  | 0 => r
  | Nat.succ k => (runCompose augmenter sr y (chainStates sr y r k)).rng

/-- The waveform produced by the `k`-th (0-based) invocation of the augmenter
inside the loop: the chain is applied to the same waveform `y` every time,
only the generator state advances. -/
def nthAug (sr : Nat) (y : Waveform) (r : Rng) (k : Nat) : Waveform :=
  (runCompose augmenter sr y (chainStates sr y r k)).out

/-- One write `augment_and_save` can produce for an input file: the mirrored
output directory and an indexed name, for some augmentation index below
`NUM_AUGMENTATIONS`, written at `SAMPLE_RATE`. -/
def mirroredWrite (input_root output_root fp : FsPath) (w : WriteRec) : Prop :=
  ∃ k, k < NUM_AUGMENTATIONS ∧
    w.path = FsPath.pushName (outputSubdirFor input_root output_root fp)
      (augName (basenameFor input_root fp) k) ∧
    w.rate = SAMPLE_RATE

/-! ## Helper lemmas -/

theorem stringAppendCancelLeft (b : String) :
    ∀ s t : String, b ++ s = b ++ t → s = t := by
  intro s t h
  have hd : b.data ++ s.data = b.data ++ t.data := by
    have h2 := congrArg String.data h
    simpa [String.data_append] using h2
  exact String.ext (List.append_cancel_left hd)

theorem augName_injOn (b : String) :
    ∀ i < NUM_AUGMENTATIONS, ∀ j < NUM_AUGMENTATIONS,
      augName b i = augName b j → i = j := by
  intro i hi j hj h
  have h2 := stringAppendCancelLeft b _ _ h
  have hi3 : i < 3 := hi
  have hj3 : j < 3 := hj
  interval_cases i <;> interval_cases j <;> first | rfl | (exact absurd h2 (by decide))

theorem augName_map_range_nodup (b : String) :
    ((List.range NUM_AUGMENTATIONS).map (fun k => augName b k)).Nodup := by
  refine (List.nodup_range NUM_AUGMENTATIONS).map_on ?_
  intro i hi j hj h
  exact augName_injOn b i (List.mem_range.mp hi) j (List.mem_range.mp hj) h

theorem pushName_injOn_name (dir : FsPath) (s t : String)
    (h : FsPath.pushName dir s = FsPath.pushName dir t) : s = t := by
  have h2 : dir.components ++ [s] = dir.components ++ [t] :=
    congrArg FsPath.components h
  have h3 := List.append_cancel_left h2
  simpa using h3

theorem outputPathsFor_nodup (input_root output_root fp : FsPath) :
    (outputPathsFor input_root output_root fp).Nodup := by
  unfold outputPathsFor
  refine (List.nodup_range NUM_AUGMENTATIONS).map_on ?_
  intro i hi j hj h
  exact augName_injOn _ i (List.mem_range.mp hi) j (List.mem_range.mp hj)
    (pushName_injOn_name _ _ _ h)

theorem chainStates_succ_shift (sr : Nat) (y : Waveform) (r : Rng) :
    ∀ k, chainStates sr y r (k + 1) =
      chainStates sr y (runCompose augmenter sr y r).rng k := by
  intro k
  induction k with
  | zero => rfl
  | succ k ih =>
    show (runCompose augmenter sr y (chainStates sr y r (k + 1))).rng = _
    rw [ih]
    rfl

theorem nthAug_succ_shift (sr : Nat) (y : Waveform) (r : Rng) (k : Nat) :
    nthAug sr y r (k + 1) = nthAug sr y (runCompose augmenter sr y r).rng k := by
  unfold nthAug
  rw [chainStates_succ_shift]

theorem augLoop_eq_ok (env : Env) (y : Waveform) (sr : Nat) (outSub : FsPath)
    (b : String) :
    ∀ (n i : Nat) (st st' : RunState),
      augLoop env y sr outSub b n i st = Except.ok st' →
      st'.writes = st.writes ++ (List.range n).map (fun k =>
        WriteRec.mk (FsPath.pushName outSub (augName b (i + k)))
          (nthAug sr y st.rng k) sr) ∧
      st'.mkdirs = st.mkdirs ++ List.replicate n outSub ∧
      st'.rng = chainStates sr y st.rng n := by
  intro n
  induction n with
  | zero =>
    intro i st st' h
    have h2 : st = st' := by
      simpa [augLoop] using h
    subst h2
    simp [chainStates]
  | succ n ih =>
    intro i st st' h
    rw [augLoop] at h
    by_cases hw : env.writeOk (FsPath.pushName outSub (augName b i)) = true
    · rw [if_pos hw] at h
      obtain ⟨h1, h2, h3⟩ := ih (i + 1) _ st' h
      dsimp only at h1 h2 h3
      refine ⟨?_, ?_, ?_⟩
      · rw [h1, List.range_succ_eq_map, List.map_cons, List.map_map, List.append_assoc,
          List.singleton_append]
        congr 1
        congr 1
        refine List.map_congr_left ?_
        intro k hk
        have hik : i + 1 + k = i + (k + 1) := by omega
        simp only [Function.comp_apply, Nat.succ_eq_add_one, hik, nthAug_succ_shift]
      · rw [h2, List.append_assoc, List.singleton_append, List.replicate_succ]
      · rw [h3, chainStates_succ_shift]
    · rw [if_neg hw] at h
      exact absurd h (by simp)

theorem augLoop_isOk (env : Env) (y : Waveform) (sr : Nat) (outSub : FsPath)
    (b : String) (hw : ∀ p, env.writeOk p = true) :
    ∀ (n i : Nat) (st : RunState),
      ∃ st', augLoop env y sr outSub b n i st = Except.ok st' := by
  intro n
  induction n with
  | zero => intro i st; exact ⟨st, rfl⟩
  | succ n ih =>
    intro i st
    rw [augLoop, if_pos (hw _)]
    exact ih (i + 1) _

theorem augLoop_write_fail (env : Env) (y : Waveform) (sr : Nat) (outSub : FsPath)
    (b : String) (n i : Nat) (st : RunState)
    (hw : env.writeOk (FsPath.pushName outSub (augName b i)) = false) :
    augLoop env y sr outSub b (Nat.succ n) i st =
      Except.error (RunError.writeError (FsPath.pushName outSub (augName b i))) := by
  rw [augLoop]
  rw [if_neg (by rw [hw]; exact Bool.false_ne_true)]

theorem augLoop_error (env : Env) (y : Waveform) (sr : Nat) (outSub : FsPath)
    (b : String) :
    ∀ (n i : Nat) (st : RunState) (e : RunError),
      augLoop env y sr outSub b n i st = Except.error e →
      ∃ q, e = RunError.writeError q ∧ env.writeOk q = false := by
  intro n
  induction n with
  | zero => intro i st e h; exact absurd h (by simp [augLoop])
  | succ n ih =>
    intro i st e h
    rw [augLoop] at h
    by_cases hw : env.writeOk (FsPath.pushName outSub (augName b i)) = true
    · rw [if_pos hw] at h
      exact ih (i + 1) _ e h
    · rw [if_neg hw] at h
      refine ⟨FsPath.pushName outSub (augName b i), ?_, by simpa using hw⟩
      simpa using h.symm

theorem augment_and_save_ok_contents (env : Env) (fp : FsPath) (sr : Nat)
    (ir outr : FsPath) (st st' : RunState)
    (h : augment_and_save env fp sr ir outr st = Except.ok st') :
    ∃ content, env.contents fp = some content := by
  unfold augment_and_save at h
  cases hc : env.contents fp with
  | none => rw [hc] at h; exact absurd h (by simp)
  | some c => exact ⟨c, rfl⟩

theorem augment_and_save_ok_spec (env : Env) (fp : FsPath) (sr : Nat)
    (ir outr : FsPath) (st st' : RunState) (content : Waveform × Nat)
    (hc : env.contents fp = some content)
    (h : augment_and_save env fp sr ir outr st = Except.ok st') :
    st'.writes = st.writes ++ (List.range NUM_AUGMENTATIONS).map (fun k =>
      WriteRec.mk (FsPath.pushName (outputSubdirFor ir outr fp)
          (augName (basenameFor ir fp) k))
        (nthAug sr content.1 st.rng k) sr) ∧
    st'.mkdirs = st.mkdirs ++
      List.replicate NUM_AUGMENTATIONS (outputSubdirFor ir outr fp) ∧
    st'.rng = chainStates sr content.1 st.rng NUM_AUGMENTATIONS := by
  unfold augment_and_save at h
  rw [hc] at h
  have h2 := augLoop_eq_ok env content.1 sr
    (FsPath.joinPath outr (FsPath.parent (FsPath.relativeTo fp ir)))
    (stemOfName (FsPath.lastName (FsPath.relativeTo fp ir)))
    NUM_AUGMENTATIONS 0 st st' h
  simpa [outputSubdirFor, basenameFor, librosa_load] using h2

theorem augment_and_save_isOk (env : Env) (fp : FsPath) (sr : Nat)
    (ir outr : FsPath) (st : RunState) (content : Waveform × Nat)
    (hc : env.contents fp = some content) (hw : ∀ p, env.writeOk p = true) :
    ∃ st', augment_and_save env fp sr ir outr st = Except.ok st' := by
  unfold augment_and_save
  rw [hc]
  exact augLoop_isOk env _ sr _ _ hw NUM_AUGMENTATIONS 0 st

theorem augment_and_save_load_fail (env : Env) (fp : FsPath) (sr : Nat)
    (ir outr : FsPath) (st : RunState) (hc : env.contents fp = none) :
    augment_and_save env fp sr ir outr st = Except.error (RunError.loadError fp) := by
  unfold augment_and_save
  rw [hc]

theorem augment_and_save_error (env : Env) (fp : FsPath) (sr : Nat)
    (ir outr : FsPath) (st : RunState) (e : RunError)
    (h : augment_and_save env fp sr ir outr st = Except.error e) :
    (e = RunError.loadError fp ∧ env.contents fp = none) ∨
    (∃ q, e = RunError.writeError q ∧ env.writeOk q = false) := by
  unfold augment_and_save at h
  cases hc : env.contents fp with
  | none =>
    rw [hc] at h
    left
    exact ⟨by simpa using h.symm, rfl⟩
  | some c =>
    rw [hc] at h
    right
    exact augLoop_error env _ sr _ _ NUM_AUGMENTATIONS 0 st e h

theorem processFiles_writes_spec (env : Env) (ir outr : FsPath) :
    ∀ (files : List FsPath) (st st' : RunState),
      processFiles env ir outr files st = Except.ok st' →
      ∀ w ∈ st'.writes, w ∈ st.writes ∨ ∃ fp ∈ files, mirroredWrite ir outr fp w := by
  intro files
  induction files with
  | nil =>
    intro st st' h w hw
    have h2 : st = st' := by simpa [processFiles] using h
    subst h2
    exact Or.inl hw
  | cons fp rest ih =>
    intro st st' h w hw
    rw [processFiles] at h
    cases ha : augment_and_save env fp SAMPLE_RATE ir outr st with
    | error e => rw [ha] at h; exact absurd h (by simp)
    | ok st1 =>
      rw [ha] at h
      obtain ⟨c, hc⟩ := augment_and_save_ok_contents env fp SAMPLE_RATE ir outr st st1 ha
      obtain ⟨h1, _, _⟩ := augment_and_save_ok_spec env fp SAMPLE_RATE ir outr st st1 c hc ha
      rcases ih st1 st' h w hw with hin | ⟨fq, hfq, hm⟩
      · rw [h1] at hin
        rcases List.mem_append.mp hin with hin1 | hin2
        · exact Or.inl hin1
        · right
          refine ⟨fp, List.mem_cons_self fp rest, ?_⟩
          obtain ⟨k, hk, hwk⟩ := List.mem_map.mp hin2
          exact ⟨k, List.mem_range.mp hk, by simp [← hwk], by simp [← hwk]⟩
      · exact Or.inr ⟨fq, List.mem_cons_of_mem fp hfq, hm⟩

theorem processFiles_isOk (env : Env) (ir outr : FsPath)
    (hr : ∀ p, (env.contents p).isSome = true) (hw : ∀ p, env.writeOk p = true) :
    ∀ (files : List FsPath) (st : RunState),
      ∃ st', processFiles env ir outr files st = Except.ok st' := by
  intro files
  induction files with
  | nil => intro st; exact ⟨st, rfl⟩
  | cons fp rest ih =>
    intro st
    obtain ⟨c, hc⟩ := Option.isSome_iff_exists.mp (hr fp)
    obtain ⟨st1, h1⟩ := augment_and_save_isOk env fp SAMPLE_RATE ir outr st c hc hw
    obtain ⟨st', h2⟩ := ih st1
    refine ⟨st', ?_⟩
    rw [processFiles, h1]
    exact h2

theorem processFiles_error_head (env : Env) (ir outr fp : FsPath)
    (rest : List FsPath) (st : RunState) (e : RunError)
    (h : augment_and_save env fp SAMPLE_RATE ir outr st = Except.error e) :
    processFiles env ir outr (fp :: rest) st = Except.error e := by
  rw [processFiles, h]

theorem rglobWavDisk_of_dir (env : Env) (listing : List FsPath)
    (hd : env.inputDirExists = true) :
    rglobWavDisk env listing = rglobWav listing INPUT_DIR := by
  unfold rglobWavDisk
  rw [if_pos hd]

theorem rglobWavDisk_of_missing (env : Env) (listing : List FsPath)
    (hd : env.inputDirExists = false) :
    rglobWavDisk env listing = [] := by
  unfold rglobWavDisk
  rw [if_neg (by rw [hd]; exact Bool.false_ne_true)]

theorem runDriver_ok_spec (env : Env) (listing : List FsPath) (n : Nat)
    (st : RunState) (h : runDriver env listing = Except.ok (n, st)) :
    n = (rglobWavDisk env listing).length ∧
    processFiles env INPUT_DIR OUTPUT_DIR (rglobWavDisk env listing)
      (initState env) = Except.ok st := by
  unfold runDriver at h
  cases hp : processFiles env INPUT_DIR OUTPUT_DIR (rglobWavDisk env listing)
      (initState env) with
  | error e => rw [hp] at h; exact absurd h (by simp)
  | ok st0 =>
    rw [hp] at h
    have h2 : (rglobWavDisk env listing).length = n ∧ st0 = st := by
      simpa using h
    exact ⟨h2.1.symm, by rw [h2.2]⟩

/-! ## The fired pattern and parameter windows of one chain invocation -/

/-- The fired pattern of one `Compose` invocation, computed from the generator
alone: each transform consumes one coin draw of its own, plus one parameter
draw when it fires; the waveform never enters the decision. -/
def flagsOnly : List Transform → Rng → List Bool
  | [], _ => []
  | t :: ts, r =>
    let (c, r1) := r.next
    if c < t.prob then true :: flagsOnly ts r1.next.2
    else false :: flagsOnly ts r1

theorem runCompose_trace_flags (sr : Nat) :
    ∀ (ts : List Transform) (y : Waveform) (r : Rng),
      (runCompose ts sr y r).trace.map Prod.fst = flagsOnly ts r := by
  intro ts
  induction ts with
  | nil => intro y r; rfl
  | cons t ts2 ih =>
    intro y r
    by_cases hc : r.stream r.pos < t.prob
    · simp [runCompose, runTransform, flagsOnly, Rng.next, uniformDraw, hc, ih]
    · simp [runCompose, runTransform, flagsOnly, Rng.next, uniformDraw, hc, ih]

theorem runCompose_trace_length (sr : Nat) :
    ∀ (ts : List Transform) (y : Waveform) (r : Rng),
      (runCompose ts sr y r).trace.length = ts.length := by
  intro ts
  induction ts with
  | nil => intro y r; rfl
  | cons t ts2 ih =>
    intro y r
    simp [runCompose, ih]

/-- A draw list realising a given fired pattern: a firing transform consumes a
coin of `0` and a parameter draw of `0`; a skipped one consumes a coin of `1`. -/
def coinDraws : List Bool → List ℚ
  | [] => []
  | true :: bs => 0 :: 0 :: coinDraws bs
  | false :: bs => 1 :: coinDraws bs

theorem getD_cons_cons_two (a b : ℚ) (l : List ℚ) (k : Nat) (d : ℚ) :
    (a :: b :: l).getD (k + 2) d = l.getD k d := rfl

theorem getD_cons_one (a : ℚ) (l : List ℚ) (k : Nat) (d : ℚ) :
    (a :: l).getD (k + 1) d = l.getD k d := rfl

theorem flagsOnly_coinDraws :
    ∀ (bs : List Bool) (ts : List Transform),
      ts.length = bs.length →
      (∀ t ∈ ts, 0 < t.prob ∧ t.prob ≤ 1) →
      ∀ (u : Nat → ℚ) (pos : Nat),
        (∀ k, u (pos + k) = (coinDraws bs).getD k 1) →
        flagsOnly ts (Rng.mk u pos) = bs := by
  intro bs
  induction bs with
  | nil =>
    intro ts hlen _ u pos _
    have h0 : ts = [] := List.length_eq_zero.mp hlen
    subst h0
    rfl
  | cons b bs ih =>
    intro ts hlen hp u pos hu
    cases ts with
    | nil => exact absurd hlen (by simp)
    | cons t ts2 =>
      have hlen2 : ts2.length = bs.length := by simpa using hlen
      have hp2 : ∀ t2 ∈ ts2, 0 < t2.prob ∧ t2.prob ≤ 1 :=
        fun t2 ht2 => hp t2 (List.mem_cons_of_mem t ht2)
      obtain ⟨hpos, hle⟩ := hp t (List.mem_cons_self t ts2)
      cases b with
      | true =>
        have hc : u pos = 0 := by simpa [coinDraws] using hu 0
        simp only [flagsOnly, Rng.next, hc]
        rw [if_pos hpos]
        refine congrArg (List.cons true) ?_
        refine ih ts2 hlen2 hp2 u (pos + 1 + 1) ?_
        intro k
        have hpk : pos + 1 + 1 + k = pos + (k + 2) := by omega
        rw [hpk, hu (k + 2)]
        simp only [coinDraws, getD_cons_cons_two]
      | false =>
        have hc : u pos = 1 := by simpa [coinDraws] using hu 0
        simp only [flagsOnly, Rng.next, hc]
        rw [if_neg (not_lt.mpr hle)]
        refine congrArg (List.cons false) ?_
        refine ih ts2 hlen2 hp2 u (pos + 1) ?_
        intro k
        have hpk : pos + 1 + k = pos + (k + 1) := by omega
        rw [hpk, hu (k + 1)]
        simp only [coinDraws, getD_cons_one]

theorem augmenter_probs : ∀ t ∈ augmenter, 0 < t.prob ∧ t.prob ≤ 1 := by
  intro t ht
  simp only [augmenter, List.mem_cons, List.not_mem_nil, or_false] at ht
  rcases ht with h | h | h | h <;> subst h <;> constructor <;> norm_num

theorem augmenter_windows : ∀ t ∈ augmenter, t.lo ≤ t.hi := by
  intro t ht
  simp only [augmenter, List.mem_cons, List.not_mem_nil, or_false] at ht
  rcases ht with h | h | h | h <;> subst h <;> norm_num [AUGMENTATION_PARAMS]

theorem runCompose_params_in_window (sr : Nat) :
    ∀ (ts : List Transform) (y : Waveform) (r : Rng),
      (∀ n, 0 ≤ r.stream n ∧ r.stream n ≤ 1) →
      (∀ t ∈ ts, t.lo ≤ t.hi) →
      ∀ e ∈ ts.zip (runCompose ts sr y r).trace,
        e.2.1 = true → ∃ v, e.2.2 = some v ∧ e.1.lo ≤ v ∧ v ≤ e.1.hi := by
  intro ts
  induction ts with
  | nil =>
    intro y r _ _ e he
    exact absurd he (by simp [runCompose])
  | cons t ts2 ih =>
    intro y r hr hw e he
    have hw2 : ∀ t2 ∈ ts2, t2.lo ≤ t2.hi :=
      fun t2 ht2 => hw t2 (List.mem_cons_of_mem t ht2)
    have hlh := hw t (List.mem_cons_self t ts2)
    by_cases hc : r.stream r.pos < t.prob
    · simp only [runCompose, runTransform, Rng.next, uniformDraw] at he
      rw [if_pos hc] at he
      simp only [List.zip_cons_cons, List.mem_cons] at he
      rcases he with h1 | h2
      · subst h1
        intro _
        refine ⟨t.lo + r.stream (r.pos + 1) * (t.hi - t.lo), rfl, ?_, ?_⟩
        · have h0 := (hr (r.pos + 1)).1
          nlinarith [mul_nonneg h0 (sub_nonneg.mpr hlh)]
        · have h1' := (hr (r.pos + 1)).2
          have hm := mul_le_of_le_one_left (sub_nonneg.mpr hlh) h1'
          linarith
      · exact ih _ (Rng.mk r.stream (r.pos + 1 + 1)) (fun n => hr n) hw2 e h2
    · simp only [runCompose, runTransform, Rng.next, uniformDraw] at he
      rw [if_neg hc] at he
      simp only [List.zip_cons_cons, List.mem_cons] at he
      rcases he with h1 | h2
      · subst h1
        intro hfired
        exact absurd hfired (by simp)
      · exact ih _ (Rng.mk r.stream (r.pos + 1)) (fun n => hr n) hw2 e h2

/-! ## Filesystem lemmas: overwriting and `exist_ok` directories -/

theorem readAssoc_removePath (q p : FsPath) :
    ∀ es, readAssoc (removePath es q) p = if p = q then none else readAssoc es p := by
  intro es
  induction es with
  | nil => simp [removePath, readAssoc]
  | cons e es ih =>
    rw [removePath]
    by_cases heq : e.1 = q
    · rw [if_pos heq, ih]
      by_cases hpq : p = q
      · simp [hpq]
      · have hne : e.1 ≠ p := by rw [heq]; exact fun h => hpq h.symm
        rw [if_neg hpq, if_neg hpq, readAssoc, if_neg hne]
    · rw [if_neg heq, readAssoc]
      by_cases hep : e.1 = p
      · have hpq : p ≠ q := fun h => heq (by rw [hep, h])
        rw [if_pos hep, if_neg hpq, readAssoc, if_pos hep]
      · rw [if_neg hep, ih, readAssoc]
        by_cases hpq : p = q
        · simp [hpq]
        · rw [if_neg hpq, if_neg hpq, if_neg hep]

theorem read_writeFile (fs : Fs) (w : WriteRec) (p : FsPath) :
    (fs.writeFile w).read p =
      if p = w.path then some (w.samples, w.rate) else fs.read p := by
  unfold Fs.writeFile Fs.read
  rw [readAssoc]
  by_cases hp : p = w.path
  · rw [if_pos (by rw [hp]), if_pos hp]
  · rw [if_neg (fun h => hp h.symm), if_neg hp, readAssoc_removePath, if_neg hp]

/-- The last write a run performed at a path, if any. -/
def lastWriteAt : List WriteRec → FsPath → Option (Waveform × Nat)
  | [], _ => none
  | w :: ws, p =>
    match lastWriteAt ws p with
    | some v => some v
    | none => if w.path = p then some (w.samples, w.rate) else none

theorem read_foldl_writeFile (p : FsPath) :
    ∀ (ws : List WriteRec) (fs : Fs),
      (ws.foldl Fs.writeFile fs).read p =
        (lastWriteAt ws p).elim (fs.read p) some := by
  intro ws
  induction ws with
  | nil => intro fs; rfl
  | cons w ws ih =>
    intro fs
    rw [List.foldl_cons, ih, lastWriteAt]
    cases hl : lastWriteAt ws p with
    | some v => rfl
    | none =>
      rw [read_writeFile]
      by_cases hp : p = w.path
      · rw [if_pos hp, if_pos (by rw [hp])]
        rfl
      · rw [if_neg hp, if_neg (fun h => hp h.symm)]

theorem read_foldl_writeFile_idem (ws : List WriteRec) (fs : Fs) (p : FsPath) :
    (ws.foldl Fs.writeFile (ws.foldl Fs.writeFile fs)).read p =
      (ws.foldl Fs.writeFile fs).read p := by
  rw [read_foldl_writeFile, read_foldl_writeFile]
  cases lastWriteAt ws p <;> rfl

theorem dirs_foldl_writeFile : ∀ (ws : List WriteRec) (fs : Fs),
    (ws.foldl Fs.writeFile fs).dirs = fs.dirs := by
  intro ws
  induction ws with
  | nil => intro fs; rfl
  | cons w ws ih => intro fs; rw [List.foldl_cons, ih]; rfl

theorem dirs_subset_foldl_mkdirP : ∀ (ds : List FsPath) (fs : Fs) (d : FsPath),
    d ∈ fs.dirs → d ∈ (ds.foldl Fs.mkdirP fs).dirs := by
  intro ds
  induction ds with
  | nil => intro fs d h; exact h
  | cons d0 ds ih =>
    intro fs d h
    rw [List.foldl_cons]
    apply ih
    unfold Fs.mkdirP
    by_cases h0 : d0 ∈ fs.dirs
    · rw [if_pos h0]; exact h
    · rw [if_neg h0]; exact List.mem_cons_of_mem d0 h

theorem mem_dirs_foldl_mkdirP : ∀ (ds : List FsPath) (fs : Fs) (d : FsPath),
    d ∈ ds → d ∈ (ds.foldl Fs.mkdirP fs).dirs := by
  intro ds
  induction ds with
  | nil => intro fs d h; exact absurd h (List.not_mem_nil d)
  | cons d0 ds ih =>
    intro fs d h
    rw [List.foldl_cons]
    rcases List.mem_cons.mp h with h1 | h2
    · subst h1
      apply dirs_subset_foldl_mkdirP
      unfold Fs.mkdirP
      by_cases h0 : d ∈ fs.dirs
      · rw [if_pos h0]; exact h0
      · rw [if_neg h0]; exact List.mem_cons_self d fs.dirs
    · exact ih _ d h2

theorem foldl_mkdirP_of_mem : ∀ (ds : List FsPath) (fs : Fs),
    (∀ d ∈ ds, d ∈ fs.dirs) → ds.foldl Fs.mkdirP fs = fs := by
  intro ds
  induction ds with
  | nil => intro fs _; rfl
  | cons d ds ih =>
    intro fs h
    rw [List.foldl_cons]
    have hd : d ∈ fs.dirs := h d (List.mem_cons_self d ds)
    rw [show Fs.mkdirP fs d = fs from by unfold Fs.mkdirP; rw [if_pos hd]]
    exact ih fs (fun d2 hd2 => h d2 (List.mem_cons_of_mem d hd2))

theorem mkdirP_fold_after (fs : Fs) (ds : List FsPath) (ws : List WriteRec) :
    ds.foldl Fs.mkdirP (ws.foldl Fs.writeFile (ds.foldl Fs.mkdirP fs)) =
      ws.foldl Fs.writeFile (ds.foldl Fs.mkdirP fs) := by
  apply foldl_mkdirP_of_mem
  intro d hd
  rw [dirs_foldl_writeFile]
  exact mem_dirs_foldl_mkdirP ds fs d hd

theorem applyRun_idem_read (fs : Fs) (st : RunState) (p : FsPath) :
    ((fs.applyRun st).applyRun st).read p = (fs.applyRun st).read p := by
  unfold Fs.applyRun
  rw [mkdirP_fold_after]
  exact read_foldl_writeFile_idem st.writes _ p

theorem applyRun_idem_dirs (fs : Fs) (st : RunState) :
    ((fs.applyRun st).applyRun st).dirs = (fs.applyRun st).dirs := by
  unfold Fs.applyRun
  rw [mkdirP_fold_after]
  simp only [dirs_foldl_writeFile]

/-! ## Concrete environments for witnesses -/

/-- A one-file disk for concrete witnesses: `red/yes.wav` under the input root. -/
def witnessFile : FsPath :=
  FsPath.mk ["workspace", "data", "raw_audio", "red", "yes.wav"]

/-- A second input path, used to exercise the pending-files tail. -/
def witnessFile2 : FsPath :=
  FsPath.mk ["workspace", "data", "raw_audio", "blue", "no.wav"]

/-- A disk holding exactly `witnessFile`. -/
def witnessContents (p : FsPath) : Option (Waveform × Nat) :=
  if p = witnessFile then some ([1, 0, -1/2], 44100) else none

/-- Seeded environment over the one-file disk, everything writable. -/
def witnessEnv : Env := mkEnv RANDOM_SEED witnessContents (fun _ => true) true

/-- Seeded environment where every path is readable and writable. -/
def witnessEnvAll : Env :=
  mkEnv RANDOM_SEED (fun _ => some ([1, 0], 44100)) (fun _ => true) true

/-- Seeded environment whose input directory is missing. -/
def failEnvNoDir : Env := mkEnv RANDOM_SEED witnessContents (fun _ => true) false

/-- Seeded environment where every read raises. -/
def failEnvUnreadable : Env := mkEnv RANDOM_SEED (fun _ => none) (fun _ => true) true

/-- Seeded environment where every write raises. -/
def failEnvUnwritable : Env :=
  mkEnv RANDOM_SEED (fun _ => some ([1], 8)) (fun _ => false) true

/-! ## The claims -/

/-- C1: for every input file the per-file routine can load, with its output
paths writable, `augment_and_save` produces exactly `NUM_AUGMENTATIONS` output
files, whose paths are `{basename}_aug{i}.wav` for `i = 1 .. NUM_AUGMENTATIONS`
in order (`augName` tags the `k`-th write, `k = 0, 1, ...`, with the 1-based
index `k+1`, so the indices are contiguous with no gaps), with no duplicates. -/
theorem c1_per_file_output_count_and_names (env : Env) (fp ir outr : FsPath)
    (st : RunState) (content : Waveform × Nat)
    (hc : env.contents fp = some content)
    (hw : ∀ p, env.writeOk p = true) :
    ∃ st', augment_and_save env fp SAMPLE_RATE ir outr st = Except.ok st' ∧
      (st'.writes.drop st.writes.length).map (fun w : WriteRec => w.path) =
        outputPathsFor ir outr fp ∧
      (st'.writes.drop st.writes.length).length = NUM_AUGMENTATIONS ∧
      (outputPathsFor ir outr fp).Nodup := by
  obtain ⟨st', h⟩ := augment_and_save_isOk env fp SAMPLE_RATE ir outr st content hc hw
  obtain ⟨h1, _, _⟩ := augment_and_save_ok_spec env fp SAMPLE_RATE ir outr st st' content hc h
  refine ⟨st', h, ?_, ?_, outputPathsFor_nodup ir outr fp⟩
  · rw [h1, List.drop_left, List.map_map]
    rfl
  · rw [h1, List.drop_left]
    simp

theorem c1_witness :
    ∃ st', augment_and_save witnessEnv witnessFile SAMPLE_RATE INPUT_DIR OUTPUT_DIR
        (initState witnessEnv) = Except.ok st' ∧
      (st'.writes.drop (initState witnessEnv).writes.length).map
          (fun w : WriteRec => w.path) =
        outputPathsFor INPUT_DIR OUTPUT_DIR witnessFile ∧
      (st'.writes.drop (initState witnessEnv).writes.length).length =
        NUM_AUGMENTATIONS ∧
      (outputPathsFor INPUT_DIR OUTPUT_DIR witnessFile).Nodup :=
  c1_per_file_output_count_and_names witnessEnv witnessFile INPUT_DIR OUTPUT_DIR
    (initState witnessEnv) ([1, 0, -1/2], 44100) rfl (fun _ => rfl)

/-- C2: every file a successful run writes sits under `OUTPUT_DIR` joined with
the input file's class subdirectory (the parent of its path relative to
`INPUT_DIR`) and carries an augmentation index below `NUM_AUGMENTATIONS` in
its name; within one input file the output paths are pairwise distinct because
each carries a distinct index.  The property quantifies over every write in
the run's trace, so it holds after every write the run performs. -/
theorem c2_outputs_mirror_class_subdirs (env : Env) (listing : List FsPath)
    (n : Nat) (st : RunState) (h : runDriver env listing = Except.ok (n, st)) :
    (∀ w ∈ st.writes, ∃ fp ∈ rglobWav listing INPUT_DIR,
      mirroredWrite INPUT_DIR OUTPUT_DIR fp w) ∧
    ∀ fp : FsPath, (outputPathsFor INPUT_DIR OUTPUT_DIR fp).Nodup := by
  obtain ⟨_, hp⟩ := runDriver_ok_spec env listing n st h
  constructor
  · intro w hw
    by_cases hd : env.inputDirExists = true
    · rw [rglobWavDisk_of_dir env listing hd] at hp
      rcases processFiles_writes_spec env INPUT_DIR OUTPUT_DIR _ _ _ hp w hw with h0 | h2
      · exact absurd h0 (by simp [initState])
      · exact h2
    · rw [rglobWavDisk_of_missing env listing (by simpa using hd)] at hp
      have hst : initState env = st := by simpa [processFiles] using hp
      rw [← hst] at hw
      exact absurd hw (by simp [initState])
  · exact fun fp => outputPathsFor_nodup INPUT_DIR OUTPUT_DIR fp

theorem c2_witness :
    ∃ n st, runDriver witnessEnvAll [witnessFile] = Except.ok (n, st) ∧
      ∀ w ∈ st.writes, ∃ fp ∈ rglobWav [witnessFile] INPUT_DIR,
        mirroredWrite INPUT_DIR OUTPUT_DIR fp w := by
  obtain ⟨st, hst⟩ := processFiles_isOk witnessEnvAll INPUT_DIR OUTPUT_DIR
    (fun _ => rfl) (fun _ => rfl) (rglobWavDisk witnessEnvAll [witnessFile])
    (initState witnessEnvAll)
  have hrun : runDriver witnessEnvAll [witnessFile] =
      Except.ok ((rglobWavDisk witnessEnvAll [witnessFile]).length, st) := by
    unfold runDriver
    rw [hst]
  exact ⟨_, st, hrun,
    (c2_outputs_mirror_class_subdirs witnessEnvAll [witnessFile] _ st hrun).1⟩

/-- C3: the run is a deterministic function of the seed and the disk: `mkEnv`
builds the whole draw stream from the seed alone (`seededStream`), so two runs
with equal seeds, equal disks and equal listings return equal results — in
particular sample-identical output waveforms for every output file. -/
theorem c3_fixed_seed_determinism (sa sb : Nat)
    (ca cb : FsPath → Option (Waveform × Nat)) (wa wb : FsPath → Bool)
    (da db : Bool) (la lb : List FsPath)
    (hs : sa = sb) (hc : ca = cb) (hw : wa = wb) (hd : da = db) (hl : la = lb) :
    runDriver (mkEnv sa ca wa da) la = runDriver (mkEnv sb cb wb db) lb := by
  subst hs
  subst hc
  subst hw
  subst hd
  subst hl
  rfl

theorem c3_witness :
    runDriver (mkEnv RANDOM_SEED witnessContents (fun _ => true) true) [witnessFile] =
      runDriver (mkEnv RANDOM_SEED witnessContents (fun _ => true) true) [witnessFile] :=
  c3_fixed_seed_determinism RANDOM_SEED RANDOM_SEED witnessContents witnessContents
    (fun _ => true) (fun _ => true) true true [witnessFile] [witnessFile]
    rfl rfl rfl rfl rfl

/-- C4: inside `augment_and_save` every one of the `NUM_AUGMENTATIONS`
repetitions applies the chain to the originally loaded waveform: the `k`-th
written samples are `nthAug`, which by definition runs the chain on the very
`y` returned by the load — never on a previous repetition's output; only the
generator state advances between repetitions (the chain returns a fresh
waveform and leaves its input unchanged). -/
theorem c4_each_repetition_from_original (env : Env) (fp ir outr : FsPath)
    (st st' : RunState) (content : Waveform × Nat)
    (hc : env.contents fp = some content)
    (h : augment_and_save env fp SAMPLE_RATE ir outr st = Except.ok st') :
    (st'.writes.drop st.writes.length).map (fun w : WriteRec => w.samples) =
      (List.range NUM_AUGMENTATIONS).map
        (fun k => nthAug SAMPLE_RATE (librosa_load content SAMPLE_RATE).1 st.rng k) := by
  obtain ⟨h1, _, _⟩ :=
    augment_and_save_ok_spec env fp SAMPLE_RATE ir outr st st' content hc h
  rw [h1, List.drop_left, List.map_map]
  rfl

theorem c4_witness :
    ∃ st', augment_and_save witnessEnv witnessFile SAMPLE_RATE INPUT_DIR OUTPUT_DIR
        (initState witnessEnv) = Except.ok st' ∧
      (st'.writes.drop (initState witnessEnv).writes.length).map
          (fun w : WriteRec => w.samples) =
        (List.range NUM_AUGMENTATIONS).map
          (fun k => nthAug SAMPLE_RATE
            (librosa_load ([1, 0, -1/2], 44100) SAMPLE_RATE).1
            (initState witnessEnv).rng k) := by
  obtain ⟨st', h⟩ := augment_and_save_isOk witnessEnv witnessFile SAMPLE_RATE INPUT_DIR
    OUTPUT_DIR (initState witnessEnv) ([1, 0, -1/2], 44100) rfl (fun _ => rfl)
  exact ⟨st', h, c4_each_repetition_from_original witnessEnv witnessFile INPUT_DIR
    OUTPUT_DIR (initState witnessEnv) st' ([1, 0, -1/2], 44100) rfl h⟩

/-- C5: one invocation of the chain runs exactly four transforms in the fixed
order additive noise, time stretch, pitch shift, time shift (the `augmenter`
list, whose windows are the four `AUGMENTATION_PARAMS` windows in that order),
each with probability `1/2`; the fired pattern is decided by each transform's
own draw and nothing else (`flagsOnly` reads only the generator), and every
pattern of the four — none, all, or any other subset — is realised by some
draw stream. -/
theorem c5_four_transforms_any_subset (sr : Nat) (y : Waveform) :
    augmenter.length = 4 ∧
    augmenter.map Transform.prob = [1/2, 1/2, 1/2, 1/2] ∧
    augmenter.map (fun t => (t.lo, t.hi)) =
      [AUGMENTATION_PARAMS.noise_amplitude, AUGMENTATION_PARAMS.time_stretch_rate,
       AUGMENTATION_PARAMS.pitch_shift_semitones, AUGMENTATION_PARAMS.shift_fraction] ∧
    (∀ r : Rng, (runCompose augmenter sr y r).trace.map Prod.fst = flagsOnly augmenter r) ∧
    ∀ bs : List Bool, bs.length = 4 →
      ∃ u : Nat → ℚ, (runCompose augmenter sr y (Rng.mk u 0)).trace.map Prod.fst = bs := by
  refine ⟨rfl, rfl, rfl, fun r => runCompose_trace_flags sr augmenter y r, ?_⟩
  intro bs hbs
  refine ⟨fun n => (coinDraws bs).getD n 1, ?_⟩
  rw [runCompose_trace_flags]
  refine flagsOnly_coinDraws bs augmenter (by rw [hbs]; rfl) augmenter_probs _ 0 ?_
  intro k
  simp

theorem c5_witness :
    ∃ u : Nat → ℚ,
      (runCompose augmenter SAMPLE_RATE [1, 0] (Rng.mk u 0)).trace.map Prod.fst =
        [true, false, true, false] :=
  (c5_four_transforms_any_subset SAMPLE_RATE [1, 0]).2.2.2.2
    [true, false, true, false] rfl

/-- C6: every output file of a successful run is written at `SAMPLE_RATE`,
whatever the native rates of the input files (the environment's contents are
unconstrained), and the loader returns the requested rate for any stored
content — so every output waveform has the configured rate. -/
theorem c6_outputs_at_configured_rate (env : Env) (listing : List FsPath)
    (n : Nat) (st : RunState) (h : runDriver env listing = Except.ok (n, st)) :
    (∀ w ∈ st.writes, w.rate = SAMPLE_RATE) ∧
    ∀ content : Waveform × Nat, (librosa_load content SAMPLE_RATE).2 = SAMPLE_RATE := by
  obtain ⟨_, hp⟩ := runDriver_ok_spec env listing n st h
  refine ⟨?_, fun content => rfl⟩
  intro w hw
  rcases processFiles_writes_spec env INPUT_DIR OUTPUT_DIR _ _ _ hp w hw with h0 | h2
  · exact absurd h0 (by simp [initState])
  · obtain ⟨fp, _, hm⟩ := h2
    unfold mirroredWrite at hm
    obtain ⟨k, _, _, hr⟩ := hm
    exact hr

theorem c6_witness :
    ∃ n st, runDriver witnessEnvAll [witnessFile] = Except.ok (n, st) ∧
      ∀ w ∈ st.writes, w.rate = SAMPLE_RATE := by
  obtain ⟨st, hst⟩ := processFiles_isOk witnessEnvAll INPUT_DIR OUTPUT_DIR
    (fun _ => rfl) (fun _ => rfl) (rglobWavDisk witnessEnvAll [witnessFile])
    (initState witnessEnvAll)
  have hrun : runDriver witnessEnvAll [witnessFile] =
      Except.ok ((rglobWavDisk witnessEnvAll [witnessFile]).length, st) := by
    unfold runDriver
    rw [hst]
  exact ⟨_, st, hrun,
    (c6_outputs_at_configured_rate witnessEnvAll [witnessFile] _ st hrun).1⟩

/-- C7 counterexample: the claim's missing-input-directory case is false.
With the input directory missing (`failEnvNoDir`), the run does not fail:
CPython's `rglob` on a nonexistent directory yields an empty iterator, so the
driver reports zero files found and returns normally instead of raising. -/
theorem c7_counterexample :
    failEnvNoDir.inputDirExists = false ∧
    runDriver failEnvNoDir [witnessFile] =
      Except.ok (0, initState failEnvNoDir) := by
  refine ⟨rfl, ?_⟩
  unfold runDriver
  rw [rglobWavDisk_of_missing failEnvNoDir [witnessFile] rfl]
  rfl

/-- C7 (amended): every failure while processing a file — an unreadable file
or a denied write — propagates uncaught and terminates the whole run: the
driver loop returns the first error unchanged whatever files were still
pending, so nothing is skipped and no later file is processed after a
failure.  A missing input directory, however, is not a failure: `rglob`
yields no files and the driver returns normally having found zero files. -/
theorem c7_failure_aborts_run (env : Env) (listing : List FsPath)
    (fp : FsPath) (rest rest' : List FsPath) (st : RunState) (e : RunError) :
    (env.inputDirExists = false →
      runDriver env listing = Except.ok (0, initState env)) ∧
    (env.contents fp = none →
      augment_and_save env fp SAMPLE_RATE INPUT_DIR OUTPUT_DIR st =
        Except.error (RunError.loadError fp)) ∧
    (augment_and_save env fp SAMPLE_RATE INPUT_DIR OUTPUT_DIR st = Except.error e →
      processFiles env INPUT_DIR OUTPUT_DIR (fp :: rest) st = Except.error e ∧
      processFiles env INPUT_DIR OUTPUT_DIR (fp :: rest') st = Except.error e) ∧
    ∀ content : Waveform × Nat, env.contents fp = some content →
      env.writeOk (FsPath.pushName (outputSubdirFor INPUT_DIR OUTPUT_DIR fp)
        (augName (basenameFor INPUT_DIR fp) 0)) = false →
      augment_and_save env fp SAMPLE_RATE INPUT_DIR OUTPUT_DIR st =
        Except.error (RunError.writeError
          (FsPath.pushName (outputSubdirFor INPUT_DIR OUTPUT_DIR fp)
            (augName (basenameFor INPUT_DIR fp) 0))) := by
  refine ⟨?_, ?_, ?_, ?_⟩
  · intro hd
    unfold runDriver
    rw [rglobWavDisk_of_missing env listing hd]
    rfl
  · intro hc
    exact augment_and_save_load_fail env fp SAMPLE_RATE INPUT_DIR OUTPUT_DIR st hc
  · intro ha
    exact ⟨processFiles_error_head env INPUT_DIR OUTPUT_DIR fp rest st e ha,
      processFiles_error_head env INPUT_DIR OUTPUT_DIR fp rest' st e ha⟩
  · intro content hc hw
    have hw2 : env.writeOk (FsPath.pushName
        (FsPath.joinPath OUTPUT_DIR (FsPath.parent (FsPath.relativeTo fp INPUT_DIR)))
        (augName (stemOfName (FsPath.lastName (FsPath.relativeTo fp INPUT_DIR))) 0)) =
        false := hw
    unfold augment_and_save
    rw [hc]
    rw [show NUM_AUGMENTATIONS = Nat.succ 2 from rfl]
    exact augLoop_write_fail env _ SAMPLE_RATE _ _ 2 0 st hw2

theorem c7_witness :
    runDriver failEnvNoDir [witnessFile] = Except.ok (0, initState failEnvNoDir) ∧
    augment_and_save failEnvUnreadable witnessFile SAMPLE_RATE INPUT_DIR OUTPUT_DIR
      (initState failEnvUnreadable) = Except.error (RunError.loadError witnessFile) ∧
    processFiles failEnvUnreadable INPUT_DIR OUTPUT_DIR [witnessFile, witnessFile2]
      (initState failEnvUnreadable) = Except.error (RunError.loadError witnessFile) ∧
    augment_and_save failEnvUnwritable witnessFile SAMPLE_RATE INPUT_DIR OUTPUT_DIR
      (initState failEnvUnwritable) = Except.error (RunError.writeError
        (FsPath.pushName (outputSubdirFor INPUT_DIR OUTPUT_DIR witnessFile)
          (augName (basenameFor INPUT_DIR witnessFile) 0))) := by
  have h1 := (c7_failure_aborts_run failEnvNoDir [witnessFile] witnessFile [] []
    (initState failEnvNoDir) (RunError.loadError witnessFile)).1 rfl
  have h2 := (c7_failure_aborts_run failEnvUnreadable [] witnessFile [witnessFile2] []
    (initState failEnvUnreadable) (RunError.loadError witnessFile)).2.1 rfl
  have h3 := ((c7_failure_aborts_run failEnvUnreadable [] witnessFile [witnessFile2] []
    (initState failEnvUnreadable) (RunError.loadError witnessFile)).2.2.1 h2).1
  have h4 := (c7_failure_aborts_run failEnvUnwritable [] witnessFile [] []
    (initState failEnvUnwritable) (RunError.loadError witnessFile)).2.2.2
    ([1], 8) rfl rfl
  exact ⟨h1, h2, h3, h4⟩

/-- C8: whenever one of the four transforms fires during a chain invocation,
the parameter it drew lies in its configured `[min, max]` window, and the
chain's windows are exactly the `AUGMENTATION_PARAMS` windows in order. -/
theorem c8_fired_params_in_window (sr : Nat) (y : Waveform) (r : Rng)
    (hr : ∀ n, 0 ≤ r.stream n ∧ r.stream n ≤ 1) :
    (∀ e ∈ augmenter.zip (runCompose augmenter sr y r).trace,
      e.2.1 = true → ∃ v, e.2.2 = some v ∧ e.1.lo ≤ v ∧ v ≤ e.1.hi) ∧
    augmenter.map (fun t => (t.lo, t.hi)) =
      [AUGMENTATION_PARAMS.noise_amplitude, AUGMENTATION_PARAMS.time_stretch_rate,
       AUGMENTATION_PARAMS.pitch_shift_semitones, AUGMENTATION_PARAMS.shift_fraction] :=
  ⟨runCompose_params_in_window sr augmenter y r hr augmenter_windows, rfl⟩

theorem c8_witness :
    ∃ e, e ∈ augmenter.zip
        (runCompose augmenter SAMPLE_RATE [1] (Rng.mk (fun _ => 0) 0)).trace ∧
      e.2.1 = true ∧ ∃ v, e.2.2 = some v ∧ e.1.lo ≤ v ∧ v ≤ e.1.hi := by
  have h := (c8_fired_params_in_window SAMPLE_RATE [1] (Rng.mk (fun _ => 0) 0)
    (fun n => by norm_num)).1
  have hfired : (runTransform (Transform.mk ((1 : ℚ)/2)
      AUGMENTATION_PARAMS.noise_amplitude.1 AUGMENTATION_PARAMS.noise_amplitude.2
      (fun a _ y => addGaussianNoiseApply a y))
      SAMPLE_RATE [1] (Rng.mk (fun _ => 0) 0)).fired = true := by
    simp only [runTransform, Rng.next]
    rw [if_pos (show (0 : ℚ) < 1/2 by norm_num)]
  refine ⟨_, List.mem_cons_self _ _, hfired, ?_⟩
  exact h _ (List.mem_cons_self _ _) hfired

/-- C9: when nothing in the listing is a `*.wav` file under the input root,
the driver reports zero files found, performs no write and no `mkdir` call,
and returns normally. -/
theorem c9_empty_input_normal_exit (env : Env) (listing : List FsPath)
    (hdir : env.inputDirExists = true)
    (hnone : ∀ p ∈ listing,
      (underRoot p INPUT_DIR && matchesWav (FsPath.lastName p)) = false) :
    runDriver env listing = Except.ok (0, initState env) ∧
    (initState env).writes = [] ∧ (initState env).mkdirs = [] := by
  have hglob : rglobWavDisk env listing = [] := by
    rw [rglobWavDisk_of_dir env listing hdir]
    apply List.filter_eq_nil_iff.mpr
    intro p hp
    simp [hnone p hp]
  refine ⟨?_, rfl, rfl⟩
  unfold runDriver
  rw [hglob]
  rfl

theorem c9_witness :
    runDriver witnessEnv [] = Except.ok (0, initState witnessEnv) ∧
    (initState witnessEnv).writes = [] ∧ (initState witnessEnv).mkdirs = [] :=
  c9_empty_input_normal_exit witnessEnv [] rfl
    (fun p hp => absurd hp (List.not_mem_nil p))

/-- C10: pre-existing outputs never make the routine raise and reruns never
accumulate files: `augment_and_save` consults nothing on disk beyond reading
its input, and its only failure modes are an unreadable input and a denied
write — never an existing file or directory (`Fs.mkdirP` is
`mkdir(exist_ok=True)`, `Fs.writeFile` silently replaces); and replaying a
finished run's effects over a filesystem that already contains them leaves
every path's content and the directory set unchanged. -/
theorem c10_rerun_overwrites (env : Env) (listing : List FsPath) (n : Nat)
    (st : RunState) (fs : Fs) (_h : runDriver env listing = Except.ok (n, st)) :
    (∀ (fp : FsPath) (st0 : RunState) (e : RunError),
      augment_and_save env fp SAMPLE_RATE INPUT_DIR OUTPUT_DIR st0 =
        Except.error e →
      (e = RunError.loadError fp ∧ env.contents fp = none) ∨
      (∃ q, e = RunError.writeError q ∧ env.writeOk q = false)) ∧
    (∀ p, ((fs.applyRun st).applyRun st).read p = (fs.applyRun st).read p) ∧
    ((fs.applyRun st).applyRun st).dirs = (fs.applyRun st).dirs := by
  refine ⟨?_, fun p => applyRun_idem_read fs st p, applyRun_idem_dirs fs st⟩
  intro fp st0 e he
  exact augment_and_save_error env fp SAMPLE_RATE INPUT_DIR OUTPUT_DIR st0 e he

theorem c10_witness :
    ∃ n st, runDriver witnessEnvAll [witnessFile] = Except.ok (n, st) ∧
      ∀ p, (((Fs.mk [] []).applyRun st).applyRun st).read p =
        ((Fs.mk [] []).applyRun st).read p := by
  obtain ⟨st, hst⟩ := processFiles_isOk witnessEnvAll INPUT_DIR OUTPUT_DIR
    (fun _ => rfl) (fun _ => rfl) (rglobWavDisk witnessEnvAll [witnessFile])
    (initState witnessEnvAll)
  have hrun : runDriver witnessEnvAll [witnessFile] =
      Except.ok ((rglobWavDisk witnessEnvAll [witnessFile]).length, st) := by
    unfold runDriver
    rw [hst]
  exact ⟨_, st, hrun,
    (c10_rerun_overwrites witnessEnvAll [witnessFile] _ st (Fs.mk [] []) hrun).2.1⟩
